import Mathlib

/-!
Verification of the open-skills core: the local skill scanner and its
front-matter extraction (src/services/SkillScanner.ts), the remote GitHub
skills client with its TTL cache, tree scan and front-matter parser
(src/github/GitHubSkillsClient.ts), and the gap analyzer
(src/services/GapAnalyzer.ts), shallowly embedded in Lean.

Modelling conventions:
- JavaScript strings are Lean `String`s; all operations are re-implemented
  structurally on `List Char` so that they evaluate inside the kernel.
- `toLowerCase` is modelled on the ASCII range (the only range the skill
  names in question use); the regex class `\s` is modelled by its ASCII
  members.
- Paths use the POSIX separator, so `path.sep` is `'/'` and `path.join` of
  plain segments is `a ++ "/" ++ b`. `path.relative` is modelled for the
  case where the file lies under the base directory, which is the case the
  scanner produces.
- Asynchronous code (`Promise.all` / `Promise.allSettled`) is modelled by
  its settled outcome: results are collected in the declared order of the
  dispatched list, and a rejected element contributes its caught fallback.
- The editor file-system API (`vscode.workspace.fs`) is modelled by an
  explicit store: directory listings and file reads as functions returning
  `Option`, and `copy` with `overwrite: false` failing when the
  destination exists.
-/

namespace OpenSkills

/-- JS regex class `\s`, restricted to its ASCII members. -/
def jsIsWs (c : Char) : Bool :=
  c == ' ' || c == '\t' || c == '\n' || c == '\r' || c == '\x0b' || c == '\x0c'

/-- JS `String.prototype.toLowerCase` on one character, ASCII range. -/
def jsToLower (c : Char) : Char :=
  if 65 ≤ c.toNat ∧ c.toNat ≤ 90 then Char.ofNat (c.toNat + 32) else c

/-- Lowercase a character list. -/
def lowerCL (l : List Char) : List Char :=
  l.map jsToLower

/-- JS `s.toLowerCase()`. -/
def lowerStr (s : String) : String :=
  String.mk (s.data.map jsToLower)

/-- The normalization `x.toLowerCase().replace(/\s+/g, "")` used for
`normalizedName` in `SkillScanner.parseSkillFile` and for dependency names
in `GapAnalyzer.findMissingDependencies`: lowercase, then remove every
whitespace character. -/
def jsNormalize (s : String) : String :=
  String.mk ((s.data.map jsToLower).filter (fun c => !jsIsWs c))

/-- JS `String.prototype.trim` on a character list. -/
def jsTrim (l : List Char) : List Char :=
  ((l.dropWhile jsIsWs).reverse.dropWhile jsIsWs).reverse

/-- JS `s.trim()`. -/
def trimStr (s : String) : String :=
  String.mk (jsTrim s.data)

/-- Split a character list on a separator character, JS `s.split(sep)`. -/
def splitOnChar (sep : Char) : List Char → List (List Char)
  | [] => [[]]
  | c :: t =>
    if c = sep then [] :: splitOnChar sep t
    else
      match splitOnChar sep t with
      | [] => [[c]]
      | h :: r => (c :: h) :: r

/-- JS `s.split("\n")`. -/
def splitLines (l : List Char) : List (List Char) :=
  splitOnChar '\n' l

/-- JS `parts.join(sep)` on character lists. -/
def joinSepCL (sep : List Char) : List (List Char) → List Char
  | [] => []
  | [x] => x
  | x :: y :: r => x ++ sep ++ joinSepCL sep (y :: r)

/-- JS `s.startsWith(pre)`. -/
def startsWithStr (s pre : String) : Bool :=
  pre.data.isPrefixOf s.data

/-- JS `s.endsWith(suf)`. -/
def endsWithStr (s suf : String) : Bool :=
  suf.data.isSuffixOf s.data

/-- Substring test on character lists, JS `h.includes(n)`. -/
def listContainsSub (h n : List Char) : Bool :=
  if n.isPrefixOf h then true
  else
    match h with
    | [] => false
    | _ :: t => listContainsSub t n

/-- JS `s.includes(sub)`. -/
def containsSub (s sub : String) : Bool :=
  listContainsSub s.data sub.data

/-- `path.join(a, b)` for plain segments under the POSIX model. -/
def pathJoin (a b : String) : String :=
  String.mk (a.data ++ '/' :: b.data)

/-- `path.dirname(p)` under the POSIX model. -/
def dirnameStr (p : String) : String :=
  let parts := splitOnChar '/' p.data
  if parts.length ≤ 1 then "." else String.mk (joinSepCL ['/'] parts.dropLast)

/-- `path.basename(p)` under the POSIX model. -/
def basenameStr (p : String) : String :=
  match (splitOnChar '/' p.data).getLast? with
  | some l => String.mk l
  | none => ""

/-- `path.relative(base, p)`, modelled for the case where `p` lies under
`base`; other inputs are returned unchanged (the scanner only forms
relative paths of files that live under its workspace root). -/
def relativeSimple (base p : String) : String :=
  if p = base then ""
  else if (base.data ++ ['/']).isPrefixOf p.data then
    String.mk (p.data.drop (base.data.length + 1))
  else p

/-- Packing a valid codepoint and unpacking it is the identity. -/
theorem toNat_ofNat_of_valid (n : Nat) (h : n.isValidChar) :
    (Char.ofNat n).toNat = n := by
  unfold Char.ofNat
  rw [dif_pos h]
  rfl

/-- ASCII lowercasing is idempotent. -/
theorem jsToLower_idem (c : Char) : jsToLower (jsToLower c) = jsToLower c := by
  by_cases h : 65 ≤ c.toNat ∧ c.toNat ≤ 90
  · have h2 : jsToLower c = Char.ofNat (c.toNat + 32) := by
      unfold jsToLower; rw [if_pos h]
    have hv : (c.toNat + 32).isValidChar := Or.inl (by omega)
    rw [h2]
    unfold jsToLower
    rw [toNat_ofNat_of_valid _ hv]
    rw [if_neg (by omega)]
  · have h2 : jsToLower c = c := by unfold jsToLower; rw [if_neg h]
    rw [h2, h2]

/-- Origin tag of a locally found skill (src/types, `SkillSource`). -/
inductive SkillSource
  | Agent
  | CursorRules
  | CursorSkills
  | Global
  | Custom
deriving DecidableEq

/-- Status of a skill record (src/types, `SkillStatus`). -/
inductive SkillStatus
  | Active
  | Missing
  | Imported
deriving DecidableEq

/-- One locally discovered skill (src/types, `SkillDefinition`). -/
structure SkillDefinition where
  id : String
  name : String
  normalizedName : String
  path : String
  description : String
  dependencies : List String
  source : SkillSource
  status : SkillStatus
  isSynced : Option Bool
deriving DecidableEq

/-- src/constants, `SKILL_FILE_NAME`. -/
def SKILL_FILE_NAME : String := "SKILL.md"

/-- src/constants, `DEFAULT_SCAN_PATHS`. -/
def DEFAULT_SCAN_PATHS : List String :=
  [".cursor/rules", ".cursor/skills", ".clinerules", ".cline_skills",
   ".claude/skills", "skills", ".github/copilot-instructions.md",
   ".github/instructions", ".continue/rules", ".continue/skills",
   ".amazonq/cli-agents", ".kiro", ".agent/skills", ".agents/skills",
   "_agent/skills", "_agents/skills"]

/-- `vscode.FileType`. -/
inductive FileType
  | file
  | directory
  | symbolicLink
  | unknown
deriving DecidableEq

/-- The slice of `vscode.workspace.fs` the scanner reads: directory
listings and file contents, each failing with `none` (the scanner catches
every rejection). -/
structure FileSystem where
  readDirectory : String → Option (List (String × FileType))
  readFile : String → Option String

/-- SkillScanner.ts `normalizePath`: split on `path.sep`, join with `/`,
lowercase — under the POSIX model the splitting and re-joining is the
identity. -/
def normalizePath (p : String) : String :=
  lowerStr p

/-- SkillScanner.ts `SOURCE_PATTERNS`. -/
def SOURCE_PATTERNS : List (String × SkillSource) :=
  [(".cursor/rules", SkillSource.CursorRules),
   (".cursor/skills", SkillSource.CursorSkills),
   (".agent", SkillSource.Agent)]

/-- The first pattern of `SOURCE_PATTERNS` whose normalized form occurs in
the normalized relative path (the `for` loop in `resolveSource`). -/
def firstSourceMatch (nrel : String) : List (String × SkillSource) → Option SkillSource
  | [] => none
  | (m, src) :: rest =>
    if containsSub nrel (normalizePath m) then some src else firstSourceMatch nrel rest

/-- SkillScanner.resolveSource. -/
def resolveSource (workspaceRoot globalPath basePath : String) : SkillSource :=
  if startsWithStr (normalizePath basePath) (normalizePath globalPath) then
    SkillSource.Global
  else
    let rel := relativeSimple workspaceRoot basePath
    match firstSourceMatch (normalizePath rel) SOURCE_PATTERNS with
    | some src => src
    | none => SkillSource.Custom

/-- SkillScanner.generateId: `path.relative(workspaceRoot, filePath)`
split on the separator, joined with `"-"`, lowercased. -/
def generateId (workspaceRoot filePath : String) : String :=
  lowerStr (String.mk (joinSepCL ['-']
    (splitOnChar '/' (relativeSimple workspaceRoot filePath).data)))

/-- One line of `content.match(/^#\s+(.+)$/m)`: a `#`, at least one
whitespace character, then at least one further character; the captured
group is the trimmed remainder. -/
def matchH1 (line : List Char) : Option String :=
  match line with
  | '#' :: c :: rest =>
    if jsIsWs c ∧ rest ≠ [] then some (String.mk (jsTrim (c :: rest))) else none
  | _ => none

/-- One line of `content.match(/^name:\s*(.+)$/m)`: the literal `name:`
followed by a nonempty remainder; the captured group is the trimmed
remainder. -/
def matchNameKey (line : List Char) : Option String :=
  if "name:".data.isPrefixOf line then
    let r := line.drop 5
    if r ≠ [] then some (String.mk (jsTrim r)) else none
  else none

/-- SkillScanner.extractName: the first level-1 heading wins, then the
first `name:` line, then the caller-supplied fallback. -/
def extractName (content : String) (fallback : String) : String :=
  match (splitLines content.data).findSome? matchH1 with
  | some t => t
  | none =>
    match (splitLines content.data).findSome? matchNameKey with
    | some v => v
    | none => fallback

/-- One line of `content.match(/^description:\s*(.+)$/m)`. -/
def matchDescKey (line : List Char) : Option String :=
  if "description:".data.isPrefixOf line then
    let r := line.drop 12
    if r ≠ [] then some (String.mk (jsTrim r)) else none
  else none

/-- SkillScanner.extractDescription: a `description:` line, else the first
trimmed line that is nonempty and starts with neither `#` nor `---`,
truncated to 200 characters. -/
def extractDescription (content : String) : String :=
  match (splitLines content.data).findSome? matchDescKey with
  | some v => v
  | none =>
    match (splitLines content.data).find? (fun l =>
        let t := jsTrim l
        !t.isEmpty && !("#".data.isPrefixOf t) && !("---".data.isPrefixOf t)) with
    | some l => String.mk ((jsTrim l).take 200)
    | none => ""

/-- Whether the leading whitespace run of `l` contains a newline; on
success, drop everything up to and including the last such newline. This
is how the greedy `\s*\n` at the end of the dependencies-header regex
consumes its input. -/
def wsRunLastNl : List Char → Option (List Char)
  | [] => none
  | c :: t =>
    if jsIsWs c then
      match wsRunLastNl t with
      | some r => some r
      | none => if c = '\n' then some t else none
    else none

/-- Match `##\s*Dependencies\s*\n` (case-insensitive) at the head of the
input, returning the remainder after the final newline. -/
def matchDepsAt : List Char → Option (List Char)
  | '#' :: '#' :: r =>
    let r2 := r.dropWhile jsIsWs
    if lowerCL (r2.take 12) = "dependencies".data then wsRunLastNl (r2.drop 12)
    else none
  | _ => none

/-- Leftmost match of the dependencies header anywhere in the text. -/
def findDeps : List Char → Option (List Char)
  | [] => none
  | c :: t =>
    match matchDepsAt (c :: t) with
    | some r => some r
    | none => findDeps t

/-- The lazy group `([\s\S]*?)(?=\n##|\n$|$)`: take characters until the
remainder starts with `\n##`, is exactly a final `\n`, or is empty. -/
def sectionUpTo : List Char → List Char
  | [] => []
  | '\n' :: '#' :: '#' :: _ => []
  | ['\n'] => []
  | c :: t => c :: sectionUpTo t

/-- One line of `line.match(/^[-*]\s+(.+)/)`: bullet, at least one
whitespace character, at least one further character; the captured group
is subsequently trimmed by the caller. -/
def matchBullet (line : List Char) : Option String :=
  match line with
  | c :: c2 :: rest =>
    if (c = '-' ∨ c = '*') ∧ jsIsWs c2 ∧ rest ≠ [] then
      some (String.mk (jsTrim (c2 :: rest)))
    else none
  | _ => none

/-- SkillScanner.extractDependencies. -/
def extractDependencies (content : String) : List String :=
  match findDeps content.data with
  | none => []
  | some r => (splitLines (sectionUpTo r)).filterMap matchBullet

/-- SkillScanner.parseSkillFile: read the file, classify its source,
extract name, normalized name, description and dependencies; any read
failure is caught and yields no record. -/
def parseSkillFile (fs : FileSystem) (workspaceRoot globalPath : String)
    (filePath skillName basePath : String) : Option SkillDefinition :=
  match fs.readFile filePath with
  | none => none
  | some text =>
    let source := resolveSource workspaceRoot globalPath basePath
    let extractedName := extractName text skillName
    some
      { id := generateId workspaceRoot filePath
        name := extractedName
        normalizedName := jsNormalize extractedName
        path := filePath
        description := extractDescription text
        dependencies := extractDependencies text
        source := source
        status := if source = SkillSource.Global then SkillStatus.Imported
                  else SkillStatus.Active
        isSynced := none }

/-- SkillScanner.scanDirectory: list the directory (a failed listing is
caught and contributes nothing), and parse a candidate skill document for
each entry. -/
def scanDirectory (fs : FileSystem) (workspaceRoot globalPath dirPath : String) :
    List SkillDefinition :=
  match fs.readDirectory dirPath with
  | none => []
  | some entries =>
    entries.filterMap (fun e =>
      if e.2 = FileType.directory then
        parseSkillFile fs workspaceRoot globalPath
          (pathJoin (pathJoin dirPath e.1) SKILL_FILE_NAME) e.1 dirPath
      else if e.1 = SKILL_FILE_NAME ∧ e.2 = FileType.file then
        parseSkillFile fs workspaceRoot globalPath
          (pathJoin dirPath e.1) (basenameStr dirPath) dirPath
      else none)

/-- SkillScanner.resolveScanPaths: the default suffixes, then the custom
suffixes, each joined to the workspace root, then the global path. -/
def resolveScanPaths (workspaceRoot : String) (customPaths : List String)
    (globalPath : String) : List String :=
  ((DEFAULT_SCAN_PATHS ++ customPaths).map (fun p => pathJoin workspaceRoot p))
    ++ [globalPath]

/-- SkillScanner.scan: every root is scanned and the per-root results are
concatenated in the declared root order (`Promise.allSettled` keeps the
dispatch order; a rejected element contributes `[]`, though
`scanDirectory` already catches all its failures). -/
def scan (fs : FileSystem) (workspaceRoot : String) (customPaths : List String)
    (globalPath : String) : List SkillDefinition :=
  (resolveScanPaths workspaceRoot customPaths globalPath).flatMap
    (fun root => scanDirectory fs workspaceRoot globalPath root)

/-- Result of the gap analysis (src/types, `GapAnalysisResult`). -/
structure GapAnalysisResult where
  present : List SkillDefinition
  missing : List SkillDefinition
  totalAvailable : Nat
  coveragePercentage : ℤ

/-- JS `Math.round` on an exact rational: round half up. -/
def jsRound (x : ℚ) : ℤ :=
  ⌊x + 1 / 2⌋

/-- The partition loop of GapAnalyzer.analyze: each reference skill is
pushed, as a shallow copy with its status overridden, onto `present` when
its normalized name is among the local names and onto `missing`
otherwise. -/
def analyzeLoop (localNames : List String) :
    List SkillDefinition → List SkillDefinition × List SkillDefinition
  | [] => ([], [])
  | skill :: rest =>
    let pm := analyzeLoop localNames rest
    if localNames.contains skill.normalizedName then
      ({ skill with status := SkillStatus.Active } :: pm.1, pm.2)
    else
      (pm.1, { skill with status := SkillStatus.Missing } :: pm.2)

/-- GapAnalyzer.analyze. -/
def analyze (localSkills referenceSkills : List SkillDefinition) :
    GapAnalysisResult :=
  let pm := analyzeLoop (localSkills.map (fun s => s.normalizedName)) referenceSkills
  { present := pm.1
    missing := pm.2
    totalAvailable := referenceSkills.length
    coveragePercentage :=
      if 0 < referenceSkills.length then
        jsRound (((pm.1.length : ℚ) / (referenceSkills.length : ℚ)) * 100)
      else 100 }

/-- A flat store of files, path to content, standing in for the portion of
the workspace file tree that import operations touch. -/
abbrev FileStore := List (String × String)

/-- Whether a path exists in the store, either as a file or as a directory
containing some stored file. -/
def pathExists (store : FileStore) (p : String) : Bool :=
  store.any (fun e => e.1 == p || startsWithStr e.1 (p ++ "/"))

/-- Modelled `vscode.workspace.fs.copy(src, tgt, { overwrite })`: fails
when the destination already exists and `overwrite` is false, fails when
the source does not exist, and otherwise copies the source file or
directory tree to the target. -/
def fsCopy (store : FileStore) (src tgt : String) (overwrite : Bool) :
    Option FileStore :=
  if overwrite = false ∧ pathExists store tgt = true then none
  else if pathExists store src = false then none
  else some (store ++ store.filterMap (fun e =>
    if e.1 == src then some (tgt, e.2)
    else if startsWithStr e.1 (src ++ "/") then
      some (tgt ++ String.mk (e.1.data.drop src.data.length), e.2)
    else none))

/-- GapAnalyzer.importSkill: copy the record's containing directory to
`targetDir/<folderName>` with `overwrite: false`; a copy rejection is
caught and reported as `false`, leaving the store untouched. -/
def importSkill (store : FileStore) (skill : SkillDefinition)
    (targetDir : String) : Bool × FileStore :=
  let sourceDir := dirnameStr skill.path
  let skillFolderName := basenameStr sourceDir
  let targetPath := pathJoin targetDir skillFolderName
  match fsCopy store sourceDir targetPath false with
  | none => (false, store)
  | some store2 => (true, store2)

/-- GapAnalyzer.findMissingDependencies: the declared dependency names
whose normalization is absent from the universe's normalized-name set. -/
def findMissingDependencies (skill : SkillDefinition)
    (allSkills : List SkillDefinition) : List String :=
  let available := allSkills.map (fun s => s.normalizedName)
  skill.dependencies.filter (fun dep => !(available.contains (jsNormalize dep)))

/-- One cache slot (src/types, `CacheEntry<T>`). -/
structure CacheEntry (α : Type) where
  data : α
  timestamp : Nat
deriving DecidableEq

/-- The client's `Map<string, CacheEntry<unknown>>`, as an association
list with unique keys. -/
abbrev Cache (α : Type) := List (String × CacheEntry α)

/-- `Map.get`. -/
def cacheGet (cache : Cache α) (key : String) : Option (CacheEntry α) :=
  (cache.find? (fun e => e.1 == key)).map (fun e => e.2)

/-- `Map.delete`. -/
def cacheDelete (cache : Cache α) (key : String) : Cache α :=
  cache.filter (fun e => !(e.1 == key))

/-- GitHubSkillsClient.getFromCache: a hit older than the configured
timeout (`Date.now() - entry.timestamp > timeout`) is deleted and reported
as a miss; otherwise the entry's data is returned. The lookup returns the
cache state after the call alongside the result. -/
def getFromCache (cache : Cache α) (key : String) (now ttl : Nat) :
    Option α × Cache α :=
  match cacheGet cache key with
  | none => (none, cache)
  | some entry =>
    if ttl < now - entry.timestamp then (none, cacheDelete cache key)
    else (some entry.data, cache)

/-- GitHubSkillsClient.setCache: store the data with the current time. -/
def setCache (cache : Cache α) (key : String) (data : α) (now : Nat) :
    Cache α :=
  (key, { data := data, timestamp := now }) :: cacheDelete cache key

/-- Git tree entry kind (`"blob" | "tree"`). -/
inductive GitItemType
  | blob
  | tree
deriving DecidableEq

/-- One entry of the recursive tree listing (`GitTreeItem`), restricted to
the fields the scan reads. -/
structure GitTreeItem where
  path : String
  type : GitItemType
deriving DecidableEq

/-- The path-prefix computation in fetchSkillsFromRepo:
`repo.path ? (repo.path.endsWith('/') ? repo.path : repo.path + '/') : ''`. -/
def computeScanPfx (repoPath : String) : String :=
  if repoPath = "" then ""
  else if endsWithStr repoPath "/" then repoPath
  else repoPath ++ "/"

/-- `item.path.substring(0, item.path.lastIndexOf("/"))`, with `""` when
the path has no slash. -/
def parentDirOf (p : String) : String :=
  let parts := splitOnChar '/' p.data
  if parts.length ≤ 1 then "" else String.mk (joinSepCL ['/'] parts.dropLast)

/-- The filter in fetchSkillsFromRepo: a blob under the prefix whose path
ends in `/SKILL.md` or is exactly `SKILL.md`. -/
def isSkillFileMatch (pfx : String) (item : GitTreeItem) : Bool :=
  item.type == GitItemType.blob && startsWithStr item.path pfx
    && (endsWithStr item.path "/SKILL.md" || item.path == "SKILL.md")

/-- JS `Array.from(new Set(xs))`: first-occurrence-order deduplication,
with the already-kept elements accumulated. -/
def dedupFirstAux (seen : List String) : List String → List String
  | [] => []
  | x :: xs =>
    if seen.contains x then dedupFirstAux seen xs
    else x :: dedupFirstAux (x :: seen) xs

/-- JS `Array.from(new Set(xs))`. -/
def dedupFirst (l : List String) : List String :=
  dedupFirstAux [] l

/-- The `skillPaths`/`uniquePaths` computation of
GitHubSkillsClient.fetchSkillsFromRepo: parent directories of the
skill-file matches, deduplicated in first-occurrence order. -/
def skillPathsOfTree (tree : List GitTreeItem) (pfx : String) : List String :=
  dedupFirst ((tree.filter (isSkillFileMatch pfx)).map (fun item => parentDirOf item.path))

/-- Parsed front-matter metadata (src/types, `SkillMetadata`). -/
structure SkillMetadata where
  name : String
  description : String
  license : Option String
  compatibility : Option String
  allowedTools : Option String
deriving DecidableEq

/-- The empty metadata record `{ name: "", description: "" }`. -/
def emptyMetadata : SkillMetadata :=
  { name := "", description := "", license := none, compatibility := none,
    allowedTools := none }

/-- Consume `\r?\n` at the head. -/
def consumeNl : List Char → Option (List Char)
  | '\r' :: '\n' :: t => some t
  | '\n' :: t => some t
  | _ => none

/-- Consume the opening `^---\r?\n` of a front-matter block; the regex is
anchored without the `m` flag, so it can only ever match at the very first
character of the document. -/
def consumeOpenDelim (s : List Char) : Option (List Char) :=
  if "---\r\n".data.isPrefixOf s then some (s.drop 5)
  else if "---\n".data.isPrefixOf s then some (s.drop 4)
  else none

/-- Match the closing `\r?\n---\r?\n` at the head, returning the body. -/
def matchCloseDelim (s : List Char) : Option (List Char) :=
  match consumeNl s with
  | none => none
  | some t =>
    match t with
    | '-' :: '-' :: '-' :: u => consumeNl u
    | _ => none

/-- The lazy group `([\s\S]*?)` before the closing delimiter: scan left to
right for the earliest position where the closing delimiter matches,
returning the group and the body. -/
def findCloseDelim (acc : List Char) : List Char → Option (List Char × List Char)
  | [] => none
  | c :: t =>
    match matchCloseDelim (c :: t) with
    | some body => some (acc.reverse, body)
    | none => findCloseDelim (c :: acc) t

/-- A character of the JS regex class `\w`. -/
def wordChar (c : Char) : Bool :=
  c.isAlphanum || c == '_'

/-- Split a line at its first colon. -/
def splitAtColon : List Char → Option (List Char × List Char)
  | [] => none
  | ':' :: t => some ([], t)
  | c :: t => (splitAtColon t).map (fun pr => (c :: pr.1, pr.2))

/-- Whether a key matches `\w+(?:-\w+)*`: hyphen-separated nonempty runs
of word characters. -/
def isYamlKey (k : List Char) : Bool :=
  (splitOnChar '-' k).all (fun seg => !seg.isEmpty && seg.all wordChar)

/-- The `line.match(/^(\w+(?:-\w+)*):\s*(.*)$/)` test of
parseYamlFrontmatter: the part before the first colon must be a valid key;
the raw remainder after the colon is returned (the caller trims it, which
subsumes the greedy `\s*`). -/
def keyValOfLine (line : List Char) : Option (List Char × List Char) :=
  match splitAtColon line with
  | none => none
  | some (k, rest) => if isYamlKey k then some (k, rest) else none

/-- GitHubSkillsClient.applyMetadataField, with the `METADATA_KEYS`
allow-list inlined: unrecognized keys leave the record unchanged. -/
def applyMetadataField (m : SkillMetadata) (key value : String) : SkillMetadata :=
  if key = "name" then { m with name := value }
  else if key = "description" then { m with description := value }
  else if key = "license" then { m with license := some value }
  else if key = "compatibility" then { m with compatibility := some value }
  else if key = "allowed-tools" then { m with allowedTools := some value }
  else m

/-- The line loop of GitHubSkillsClient.parseYamlFrontmatter, carrying the
`currentKey`/`multilineValue` folded-value state. -/
def parseYamlLoop (m : SkillMetadata) (currentKey multilineValue : String) :
    List (List Char) → SkillMetadata
  | [] =>
    if currentKey ≠ "" ∧ multilineValue ≠ "" then
      applyMetadataField m currentKey (trimStr multilineValue)
    else m
  | line :: rest =>
    match keyValOfLine line with
    | some kv =>
      let m1 :=
        if currentKey ≠ "" ∧ multilineValue ≠ "" then
          applyMetadataField m currentKey (trimStr multilineValue)
        else m
      let value := String.mk (jsTrim kv.2)
      if value ≠ "" then
        parseYamlLoop (applyMetadataField m1 (String.mk kv.1) value) "" "" rest
      else
        parseYamlLoop m1 (String.mk kv.1) "" rest
    | none =>
      if currentKey ≠ "" ∧ "  ".data.isPrefixOf line then
        parseYamlLoop m currentKey
          (multilineValue ++ trimStr (String.mk line) ++ " ") rest
      else
        parseYamlLoop m currentKey multilineValue rest

/-- GitHubSkillsClient.parseYamlFrontmatter. -/
def parseYamlFrontmatter (yaml : String) : SkillMetadata :=
  parseYamlLoop emptyMetadata "" "" (splitLines yaml.data)

/-- GitHubSkillsClient.parseSkillMd: the front-matter block is recognized
only when the anchored regex matches, i.e. only when the document begins
with a delimiter line at its very first character and a closing delimiter
follows; otherwise the metadata is empty and the body is the whole
document. -/
def parseSkillMd (content : String) : SkillMetadata × String :=
  match consumeOpenDelim content.data with
  | none => (emptyMetadata, content)
  | some rest =>
    match findCloseDelim [] rest with
    | none => (emptyMetadata, content)
    | some yb => (parseYamlFrontmatter (String.mk yb.1), String.mk yb.2)

/-- The partition loop distributes every reference record to exactly one
side, so the two lengths always sum to the reference count. -/
theorem analyzeLoop_length (ns : List String) (R : List SkillDefinition) :
    (analyzeLoop ns R).1.length + (analyzeLoop ns R).2.length = R.length := by
  induction R with
  | nil => rfl
  | cons s rest ih =>
    simp only [analyzeLoop]
    cases hc : ns.contains s.normalizedName
    · simp only [hc, Bool.false_eq_true, if_false, List.length_cons]
      omega
    · simp only [hc, if_true, List.length_cons]
      omega

/-- Every record in the `present` side is a status-overridden copy of a
reference record. -/
theorem analyzeLoop_mem_present (ns : List String) (R : List SkillDefinition)
    (r : SkillDefinition) :
    r ∈ (analyzeLoop ns R).1 →
      ∃ s, s ∈ R ∧ r = { s with status := SkillStatus.Active } := by
  induction R with
  | nil => intro hr; simp [analyzeLoop] at hr
  | cons s rest ih =>
    intro hr
    simp only [analyzeLoop] at hr
    cases hc : ns.contains s.normalizedName
    · rw [hc] at hr
      simp only [Bool.false_eq_true, if_false] at hr
      obtain ⟨s2, hs2, he⟩ := ih hr
      exact ⟨s2, List.mem_cons_of_mem s hs2, he⟩
    · rw [hc] at hr
      simp only [if_true, List.mem_cons] at hr
      rcases hr with hr | hr
      · exact ⟨s, List.mem_cons_self s rest, hr⟩
      · obtain ⟨s2, hs2, he⟩ := ih hr
        exact ⟨s2, List.mem_cons_of_mem s hs2, he⟩

/-- Every record in the `missing` side is a status-overridden copy of a
reference record. -/
theorem analyzeLoop_mem_missing (ns : List String) (R : List SkillDefinition)
    (r : SkillDefinition) :
    r ∈ (analyzeLoop ns R).2 →
      ∃ s, s ∈ R ∧ r = { s with status := SkillStatus.Missing } := by
  induction R with
  | nil => intro hr; simp [analyzeLoop] at hr
  | cons s rest ih =>
    intro hr
    simp only [analyzeLoop] at hr
    cases hc : ns.contains s.normalizedName
    · rw [hc] at hr
      simp only [Bool.false_eq_true, if_false, List.mem_cons] at hr
      rcases hr with hr | hr
      · exact ⟨s, List.mem_cons_self s rest, hr⟩
      · obtain ⟨s2, hs2, he⟩ := ih hr
        exact ⟨s2, List.mem_cons_of_mem s hs2, he⟩
    · rw [hc] at hr
      simp only [if_true] at hr
      obtain ⟨s2, hs2, he⟩ := ih hr
      exact ⟨s2, List.mem_cons_of_mem s hs2, he⟩

/-- Deleting a key really removes it from the association list. -/
theorem cacheGet_cacheDelete (c : Cache α) (k : String) :
    cacheGet (cacheDelete c k) k = none := by
  induction c with
  | nil => rfl
  | cons e t ih =>
    by_cases he : e.1 == k
    · simp only [cacheDelete] at ih ⊢
      simp only [List.filter_cons, he, Bool.not_true, if_false]
      exact ih
    · have he2 : (e.1 == k) = false := by
        simpa using he
      simp only [cacheDelete] at ih ⊢
      simp only [List.filter_cons, he2, Bool.not_false, if_true]
      simp only [cacheGet] at ih ⊢
      rw [List.find?_cons_of_neg _ (by simp [he2])]
      exact ih

/-- Membership in the first-occurrence dedup: an element is kept exactly
when it occurs in the input and was not already seen. -/
theorem dedupFirstAux_mem (l : List String) :
    ∀ (seen : List String) (x : String),
      x ∈ dedupFirstAux seen l ↔ x ∈ l ∧ x ∉ seen := by
  induction l with
  | nil => intro seen x; simp [dedupFirstAux]
  | cons y t ih =>
    intro seen x
    simp only [dedupFirstAux]
    by_cases hc : seen.contains y = true
    · have hy : y ∈ seen := by simpa using hc
      rw [if_pos hc, ih seen x]
      constructor
      · exact fun h => ⟨List.mem_cons_of_mem y h.1, h.2⟩
      · rintro ⟨hx, hns⟩
        rcases List.mem_cons.mp hx with rfl | hx
        · exact absurd hy hns
        · exact ⟨hx, hns⟩
    · have hy : y ∉ seen := by simpa using hc
      rw [if_neg hc]
      simp only [List.mem_cons, ih (y :: seen) x]
      constructor
      · rintro (rfl | ⟨hx, hns⟩)
        · exact ⟨Or.inl rfl, hy⟩
        · exact ⟨Or.inr hx, fun hs => hns (Or.inr hs)⟩
      · rintro ⟨rfl | hx, hns⟩
        · exact Or.inl rfl
        · by_cases hxy : x = y
          · exact Or.inl hxy
          · exact Or.inr ⟨hx, fun hor => hor.elim hxy hns⟩

/-- The first-occurrence dedup returns a duplicate-free list. -/
theorem dedupFirstAux_nodup (l : List String) :
    ∀ seen : List String, (dedupFirstAux seen l).Nodup := by
  induction l with
  | nil => intro seen; simp [dedupFirstAux]
  | cons y t ih =>
    intro seen
    simp only [dedupFirstAux]
    by_cases hc : seen.contains y = true
    · rw [if_pos hc]; exact ih seen
    · rw [if_neg hc]
      refine List.nodup_cons.mpr ⟨?_, ih (y :: seen)⟩
      intro hy
      exact ((dedupFirstAux_mem t (y :: seen) y).mp hy).2 (List.mem_cons_self y seen)

/-- Normalization is idempotent: lowercasing is idempotent and removing
whitespace twice removes it once. -/
theorem jsNormalize_idem (s : String) :
    jsNormalize (jsNormalize s) = jsNormalize s := by
  unfold jsNormalize
  apply congrArg String.mk
  show (((s.data.map jsToLower).filter (fun c => !jsIsWs c)).map jsToLower).filter
      (fun c => !jsIsWs c)
    = (s.data.map jsToLower).filter (fun c => !jsIsWs c)
  have hmap : ((s.data.map jsToLower).filter (fun c => !jsIsWs c)).map jsToLower
      = (s.data.map jsToLower).filter (fun c => !jsIsWs c) := by
    have h1 : ∀ a ∈ (s.data.map jsToLower).filter (fun c => !jsIsWs c),
        jsToLower a = a := by
      intro a ha
      obtain ⟨y, _, rfl⟩ := List.mem_map.mp (List.mem_filter.mp ha).1
      exact jsToLower_idem y
    calc ((s.data.map jsToLower).filter (fun c => !jsIsWs c)).map jsToLower
        = ((s.data.map jsToLower).filter (fun c => !jsIsWs c)).map id :=
          List.map_congr_left h1
      _ = _ := List.map_id _
  rw [hmap]
  exact List.filter_eq_self.mpr (fun a ha => (List.mem_filter.mp ha).2)

/-- C1: for every local skill set `L` and reference skill set `R`,
`analyze L R` returns `coveragePercentage` equal to 100 when
`totalAvailable = 0`, and otherwise equal to the JS rounding of
`100 * present.length / totalAvailable`; in every case the returned value
lies in the interval `[0, 100]`. -/
theorem C1_coverage_percentage (L R : List SkillDefinition) :
    ((analyze L R).coveragePercentage =
      if (analyze L R).totalAvailable = 0 then 100
      else jsRound ((100 * ((analyze L R).present.length : ℚ)) /
        ((analyze L R).totalAvailable : ℚ)))
    ∧ 0 ≤ (analyze L R).coveragePercentage
    ∧ (analyze L R).coveragePercentage ≤ 100 := by
  have hsum := analyzeLoop_length (L.map (fun s => s.normalizedName)) R
  have hple : (analyzeLoop (L.map (fun s => s.normalizedName)) R).1.length
      ≤ R.length := by omega
  by_cases h0 : R.length = 0
  · refine ⟨?_, ?_, ?_⟩ <;> simp [analyze, h0]
  · have hpos : 0 < R.length := Nat.pos_of_ne_zero h0
    have hq : (0:ℚ) < (R.length : ℚ) := by exact_mod_cast hpos
    have hcast : ((analyzeLoop (L.map (fun s => s.normalizedName)) R).1.length : ℚ)
        ≤ (R.length : ℚ) := by exact_mod_cast hple
    refine ⟨?_, ?_, ?_⟩
    · simp only [analyze]
      rw [if_pos hpos, if_neg h0]
      congr 1
      ring
    · simp only [analyze]
      rw [if_pos hpos]
      unfold jsRound
      apply Int.le_floor.mpr
      push_cast
      have hnn : (0:ℚ) ≤
          (((analyzeLoop (L.map (fun s => s.normalizedName)) R).1.length : ℚ) /
            (R.length : ℚ)) * 100 := by positivity
      linarith
    · simp only [analyze]
      rw [if_pos hpos]
      unfold jsRound
      have harg :
          (((analyzeLoop (L.map (fun s => s.normalizedName)) R).1.length : ℚ) /
            (R.length : ℚ)) * 100 ≤ 100 := by
        rw [div_mul_eq_mul_div, div_le_iff₀ hq]
        nlinarith
      have hfl :
          ⌊(((analyzeLoop (L.map (fun s => s.normalizedName)) R).1.length : ℚ) /
            (R.length : ℚ)) * 100 + 1 / 2⌋ ≤ ⌊(100 : ℚ) + 1 / 2⌋ :=
        Int.floor_le_floor (by linarith)
      have h100 : ⌊(100 : ℚ) + 1 / 2⌋ = 100 := by norm_num [Int.floor_eq_iff]
      omega

/-- C1 witness: concrete instance of the coverage bounds at one local and
one reference record. -/
theorem C1_coverage_percentage_witness :
    0 ≤ (analyze []
        [{ id := "a", name := "A", normalizedName := "a", path := "/r/a/SKILL.md",
           description := "", dependencies := [], source := SkillSource.Custom,
           status := SkillStatus.Active, isSynced := none }]).coveragePercentage
    ∧ (analyze []
        [{ id := "a", name := "A", normalizedName := "a", path := "/r/a/SKILL.md",
           description := "", dependencies := [], source := SkillSource.Custom,
           status := SkillStatus.Active, isSynced := none }]).coveragePercentage ≤ 100 :=
  (C1_coverage_percentage [] _).2

/-- C2 counterexample: an entry written at time 0 and read at time 1000
with a TTL of 1000 — that is, at `Δ = TTL`, which the claim covers under
`Δ ≥ TTL` and predicts to be a miss — is still returned, because the code
evicts only when `now - timestamp > ttl` (strictly). -/
theorem C2_counterexample :
    (getFromCache (setCache ([] : Cache Nat) "k" 42 0) "k" 1000 1000).1 = some 42 := by
  decide

/-- C2 amended: an entry written at time `T` is returned unchanged by a
lookup at `T + Δ` for every `Δ ≤ TTL`; for every `Δ > TTL` the lookup
finds no entry, and the expired entry is evicted from the cache at that
lookup. -/
theorem C2_cache_ttl {α : Type} (cache : Cache α) (key : String) (data : α)
    (T Δ ttl : Nat) :
    ((getFromCache (setCache cache key data T) key (T + Δ) ttl).1 =
      if Δ ≤ ttl then some data else none)
    ∧ (ttl < Δ →
        (getFromCache (setCache cache key data T) key (T + Δ) ttl).2 =
          cacheDelete (setCache cache key data T) key
        ∧ cacheGet
            (getFromCache (setCache cache key data T) key (T + Δ) ttl).2 key
          = none) := by
  have hfind : cacheGet (setCache cache key data T) key =
      some { data := data, timestamp := T } := by
    simp [setCache, cacheGet, List.find?]
  have hsub : T + Δ - T = Δ := by omega
  constructor
  · simp only [getFromCache, hfind, hsub]
    by_cases hΔ : Δ ≤ ttl
    · rw [if_pos hΔ, if_neg (not_lt.mpr hΔ)]
    · rw [if_neg hΔ, if_pos (lt_of_not_ge hΔ)]
  · intro hlt
    simp only [getFromCache, hfind, hsub]
    rw [if_pos hlt]
    exact ⟨rfl, cacheGet_cacheDelete _ _⟩

/-- C2 witness: concrete run of the amended statement with `Δ = 5` above
`ttl = 3`: miss, and the key is gone from the post-lookup cache. -/
theorem C2_cache_ttl_witness :
    (getFromCache (setCache ([] : Cache Nat) "k" 7 0) "k" 5 3).1 = none
    ∧ cacheGet (getFromCache (setCache ([] : Cache Nat) "k" 7 0) "k" 5 3).2 "k"
      = none := by
  have h := C2_cache_ttl ([] : Cache Nat) "k" 7 0 5 3
  have h1 := h.1
  rw [if_neg (by decide : ¬ (5 : Nat) ≤ 3)] at h1
  exact ⟨h1, (h.2 (by decide)).2⟩

/-- C3 counterexample: the tree listing containing
`skills/alpha/SKILL.md` and `skills/alpha/examples/SKILL.md` under path
prefix `skills/` yields the two paths `skills/alpha` and
`skills/alpha/examples`, not exactly the one path `skills/alpha` the
claim predicts: the nested match has a distinct parent directory, and the
dedup removes only identical parent paths. -/
theorem C3_counterexample :
    skillPathsOfTree
        [{ path := "skills/alpha/SKILL.md", type := GitItemType.blob },
         { path := "skills/alpha/examples/SKILL.md", type := GitItemType.blob }]
        (computeScanPfx "skills/")
      = ["skills/alpha", "skills/alpha/examples"]
    ∧ skillPathsOfTree
        [{ path := "skills/alpha/SKILL.md", type := GitItemType.blob },
         { path := "skills/alpha/examples/SKILL.md", type := GitItemType.blob }]
        (computeScanPfx "skills/")
      ≠ ["skills/alpha"] :=
  ⟨by decide, by decide⟩

/-- C3 amended: for every repository tree scan, the skill directories
produced are exactly the deduplicated parent directories of the
skill-file matches — each produced path is the parent directory of some
match, every match's parent directory is produced, and no path is
produced twice. -/
theorem C3_skill_paths (tree : List GitTreeItem) (pfx : String) :
    (skillPathsOfTree tree pfx).Nodup
    ∧ ∀ p : String,
        p ∈ skillPathsOfTree tree pfx ↔
          ∃ item, item ∈ tree ∧ isSkillFileMatch pfx item = true
            ∧ parentDirOf item.path = p := by
  constructor
  · exact dedupFirstAux_nodup _ []
  · intro p
    have hm := dedupFirstAux_mem
      ((tree.filter (isSkillFileMatch pfx)).map (fun item => parentDirOf item.path))
      [] p
    simp only [List.not_mem_nil, not_false_iff, and_true] at hm
    rw [skillPathsOfTree, dedupFirst, hm]
    simp [List.mem_map, List.mem_filter, and_assoc]

/-- C4 counterexample: a document carrying both a `name:` front-matter
line and a level-1 heading is named after the heading, not the
front-matter value as the claim predicts: `extractName` tries the heading
pattern first. -/
theorem C4_counterexample :
    extractName "name: Foo\n# Title" "fallback" = "Title"
    ∧ extractName "name: Foo\n# Title" "fallback" ≠ "Foo" :=
  ⟨by decide, by decide⟩

/-- C4 amended: the Local Scanner's extracted record name is the first
level-1 heading line whenever one exists; the front-matter `name:` value
is used only when no level-1 heading matches; and the caller-supplied
default (the containing directory's name) only when neither exists. -/
theorem C4_name_precedence (content fallback : String) :
    (∀ t, (splitLines content.data).findSome? matchH1 = some t →
        extractName content fallback = t)
    ∧ ((splitLines content.data).findSome? matchH1 = none →
        ∀ v, (splitLines content.data).findSome? matchNameKey = some v →
          extractName content fallback = v)
    ∧ ((splitLines content.data).findSome? matchH1 = none →
        (splitLines content.data).findSome? matchNameKey = none →
          extractName content fallback = fallback) := by
  refine ⟨?_, ?_, ?_⟩
  · intro t h
    simp [extractName, h]
  · intro h v hv
    simp [extractName, h, hv]
  · intro h hv
    simp [extractName, h, hv]

/-- C4 witness: concrete run of the heading-precedence branch. -/
theorem C4_name_precedence_witness :
    extractName "name: Bob\n# Hi there" "dflt" = "Hi there" :=
  (C4_name_precedence "name: Bob\n# Hi there" "dflt").1 "Hi there" (by decide)

/-- C5: `scan` returns the concatenation, in the declared order of the
root list — defaults, then custom suffixes, then the global root — of each
root's records, and a root whose directory read fails contributes zero
records without failing the whole scan. -/
theorem C5_scan_aggregation (fs : FileSystem) (workspaceRoot globalPath : String)
    (customPaths : List String) :
    (scan fs workspaceRoot customPaths globalPath =
      (((DEFAULT_SCAN_PATHS ++ customPaths).map (fun p => pathJoin workspaceRoot p))
          ++ [globalPath]).flatMap
        (fun root => scanDirectory fs workspaceRoot globalPath root))
    ∧ ∀ root, fs.readDirectory root = none →
        scanDirectory fs workspaceRoot globalPath root = [] := by
  constructor
  · rfl
  · intro root h
    simp [scanDirectory, h]

/-- A file system on which every operation fails. -/
def fsEmpty : FileSystem :=
  { readDirectory := fun _ => none, readFile := fun _ => none }

/-- C5 witness: on a file system with no readable directories, any root
contributes zero records. -/
theorem C5_scan_aggregation_witness :
    scanDirectory fsEmpty "/ws" "/g" (pathJoin "/ws" ".cursor/rules") = [] :=
  (C5_scan_aggregation fsEmpty "/ws" "/g" []).2 _ rfl

/-- C6: if the destination directory `targetDir/<skillFolderName>` already
exists, `importSkill` returns failure and leaves the store — in
particular the contents of the existing destination — unchanged. -/
theorem C6_import_no_overwrite (store : FileStore) (skill : SkillDefinition)
    (targetDir : String)
    (h : pathExists store
        (pathJoin targetDir (basenameStr (dirnameStr skill.path))) = true) :
    importSkill store skill targetDir = (false, store) := by
  simp only [importSkill, fsCopy]
  rw [if_pos ⟨trivial, h⟩]

/-- A skill record used by the concrete witnesses below. -/
def sampleSkill : SkillDefinition :=
  { id := "skills-foo-skill.md", name := "Foo", normalizedName := "foo",
    path := "/src/skills/foo/SKILL.md", description := "", dependencies := [],
    source := SkillSource.Custom, status := SkillStatus.Active, isSynced := none }

/-- A store in which the import destination `/tgt/foo` already exists. -/
def sampleStore : FileStore :=
  [("/tgt/foo/SKILL.md", "old contents")]

/-- C6 witness: importing into a store whose destination directory exists
fails and returns the store unchanged. -/
theorem C6_import_no_overwrite_witness :
    importSkill sampleStore sampleSkill "/tgt" = (false, sampleStore) :=
  C6_import_no_overwrite sampleStore sampleSkill "/tgt" (by decide)

/-- C7: every record in the returned `present` and `missing` lists is a
newly constructed shallow copy of a reference record that agrees with it
on every field except `status`, which is overridden to `Active` for
`present` and `Missing` for `missing`; the embedding is a pure function,
so the input collections are not mutated. -/
theorem C7_analyze_returns_copies (L R : List SkillDefinition) :
    (∀ r, r ∈ (analyze L R).present → ∃ s, s ∈ R ∧
        r.id = s.id ∧ r.name = s.name ∧ r.normalizedName = s.normalizedName ∧
        r.path = s.path ∧ r.description = s.description ∧
        r.dependencies = s.dependencies ∧ r.source = s.source ∧
        r.isSynced = s.isSynced ∧ r.status = SkillStatus.Active)
    ∧ (∀ r, r ∈ (analyze L R).missing → ∃ s, s ∈ R ∧
        r.id = s.id ∧ r.name = s.name ∧ r.normalizedName = s.normalizedName ∧
        r.path = s.path ∧ r.description = s.description ∧
        r.dependencies = s.dependencies ∧ r.source = s.source ∧
        r.isSynced = s.isSynced ∧ r.status = SkillStatus.Missing) := by
  constructor
  · intro r hr
    have hr2 : r ∈ (analyzeLoop (L.map (fun s => s.normalizedName)) R).1 := by
      simpa [analyze] using hr
    obtain ⟨s, hs, rfl⟩ := analyzeLoop_mem_present _ _ _ hr2
    exact ⟨s, hs, rfl, rfl, rfl, rfl, rfl, rfl, rfl, rfl, rfl⟩
  · intro r hr
    have hr2 : r ∈ (analyzeLoop (L.map (fun s => s.normalizedName)) R).2 := by
      simpa [analyze] using hr
    obtain ⟨s, hs, rfl⟩ := analyzeLoop_mem_missing _ _ _ hr2
    exact ⟨s, hs, rfl, rfl, rfl, rfl, rfl, rfl, rfl, rfl, rfl⟩

/-- C7 witness: concrete run — the missing-side copy of `sampleSkill`
agrees with some reference record on all fields except status. -/
theorem C7_analyze_returns_copies_witness :
    ∃ s, s ∈ [sampleSkill] ∧
      ({ sampleSkill with status := SkillStatus.Missing } : SkillDefinition).id = s.id ∧
      ({ sampleSkill with status := SkillStatus.Missing } : SkillDefinition).name = s.name ∧
      ({ sampleSkill with status := SkillStatus.Missing } : SkillDefinition).normalizedName = s.normalizedName ∧
      ({ sampleSkill with status := SkillStatus.Missing } : SkillDefinition).path = s.path ∧
      ({ sampleSkill with status := SkillStatus.Missing } : SkillDefinition).description = s.description ∧
      ({ sampleSkill with status := SkillStatus.Missing } : SkillDefinition).dependencies = s.dependencies ∧
      ({ sampleSkill with status := SkillStatus.Missing } : SkillDefinition).source = s.source ∧
      ({ sampleSkill with status := SkillStatus.Missing } : SkillDefinition).isSynced = s.isSynced ∧
      ({ sampleSkill with status := SkillStatus.Missing } : SkillDefinition).status = SkillStatus.Missing :=
  (C7_analyze_returns_copies [] [sampleSkill]).2
    { sampleSkill with status := SkillStatus.Missing } (by decide)

/-- C8: `normalizedName` equals the record's name lowercased with all
whitespace removed; the normalization is idempotent; and
`findMissingDependencies` applies the same normalization to dependency
names when testing membership in the universe. -/
theorem C8_normalization :
    (∀ s : String, jsNormalize (jsNormalize s) = jsNormalize s)
    ∧ (∀ (fs : FileSystem) (workspaceRoot globalPath fp n bp : String)
        (r : SkillDefinition),
        parseSkillFile fs workspaceRoot globalPath fp n bp = some r →
          r.normalizedName = jsNormalize r.name)
    ∧ (∀ (skill : SkillDefinition) (allSkills : List SkillDefinition)
        (dep : String),
        dep ∈ findMissingDependencies skill allSkills ↔
          dep ∈ skill.dependencies ∧
            ¬ jsNormalize dep ∈ allSkills.map (fun s => s.normalizedName)) := by
  refine ⟨jsNormalize_idem, ?_, ?_⟩
  · intro fs workspaceRoot globalPath fp n bp r h
    unfold parseSkillFile at h
    cases hf : fs.readFile fp with
    | none =>
      rw [hf] at h
      exact absurd h (by simp)
    | some text =>
      rw [hf] at h
      have h2 := Option.some.inj h
      subst h2
      rfl
  · intro skill allSkills dep
    simp [findMissingDependencies, List.mem_filter]

/-- A file system holding one skill document, used by witnesses. -/
def fsSample : FileSystem :=
  { readDirectory := fun _ => none
    readFile := fun p => if p = "/ws/sk/foo/SKILL.md" then some "# Foo Bar\n" else none }

/-- The record `parseSkillFile` produces from `fsSample`. -/
def sampleParsed : SkillDefinition :=
  { id := "sk-foo-skill.md", name := "Foo Bar", normalizedName := "foobar",
    path := "/ws/sk/foo/SKILL.md", description := "", dependencies := [],
    source := SkillSource.Custom, status := SkillStatus.Active, isSynced := none }

/-- C8 witness: the concrete parsed record's normalized name is the
normalization of its name. -/
theorem C8_normalization_witness :
    sampleParsed.normalizedName = jsNormalize sampleParsed.name :=
  C8_normalization.2.1 fsSample "/ws" "/g" "/ws/sk/foo/SKILL.md" "foo" "/ws/sk"
    sampleParsed (by decide)

/-- C9 counterexample: the generated id joins the relative path's
segments with a dash, not a slash: the claim's slash-joined form is not
what the code produces. -/
theorem C9_counterexample :
    generateId "/ws" "/ws/.agent/skills/Foo/SKILL.md" = ".agent-skills-foo-skill.md"
    ∧ generateId "/ws" "/ws/.agent/skills/Foo/SKILL.md" ≠ ".agent/skills/foo/skill.md" :=
  ⟨by decide, by decide⟩

/-- C9 amended: for every skill document found by the scanner, the
record's id equals the dash-joined, lowercased relative path of the
document from the workspace root. -/
theorem C9_id_format (fs : FileSystem) (workspaceRoot globalPath fp n bp : String)
    (r : SkillDefinition)
    (h : parseSkillFile fs workspaceRoot globalPath fp n bp = some r) :
    r.id = lowerStr (String.mk (joinSepCL ['-']
      (splitOnChar '/' (relativeSimple workspaceRoot r.path).data))) := by
  unfold parseSkillFile at h
  cases hf : fs.readFile fp with
  | none =>
    rw [hf] at h
    exact absurd h (by simp)
  | some text =>
    rw [hf] at h
    have h2 := Option.some.inj h
    subst h2
    rfl

/-- C9 witness: the concrete parsed record's id is its dash-joined,
lowercased relative path. -/
theorem C9_id_format_witness :
    sampleParsed.id = lowerStr (String.mk (joinSepCL ['-']
      (splitOnChar '/' (relativeSimple "/ws" sampleParsed.path).data))) :=
  C9_id_format fsSample "/ws" "/g" "/ws/sk/foo/SKILL.md" "foo" "/ws/sk"
    sampleParsed (by decide)

/-- C10: for every input string that does not begin at its very first
character with a `---` delimiter line, `parseSkillMd` returns metadata
with empty name and empty description and a body equal to the whole input
unchanged: front matter is recognized only at the exact start of the
document. -/
theorem C10_frontmatter_anchored (content : String)
    (h1 : startsWithStr content "---\n" = false)
    (h2 : startsWithStr content "---\r\n" = false) :
    parseSkillMd content = (emptyMetadata, content) := by
  have h1' : ("---\n".data.isPrefixOf content.data) = false := h1
  have h2' : ("---\r\n".data.isPrefixOf content.data) = false := h2
  have hopen : consumeOpenDelim content.data = none := by
    unfold consumeOpenDelim
    rw [if_neg (by simp [h2']), if_neg (by simp [h1'])]
  simp [parseSkillMd, hopen]

/-- C10 witness: a document whose delimiter is preceded by a blank line
keeps its whole text as body and gets empty metadata. -/
theorem C10_frontmatter_anchored_witness :
    parseSkillMd "\n---\nname: x\n---\nbody"
      = (emptyMetadata, "\n---\nname: x\n---\nbody") :=
  C10_frontmatter_anchored "\n---\nname: x\n---\nbody" (by decide) (by decide)

end OpenSkills
